import Mathlib

/-!
Verification of the `xmi` library (XMI / AWSTAPE / HET reader) against its
natural-language specification.  The Python source in `src/xmi/__init__.py`
is shallowly embedded: byte strings become `List Nat`, Python integers
become `Nat`, Python `str` becomes `List Char` / `String`, dictionaries
become insertion-ordered association lists, and fallible or possibly
non-terminating loops return `Option` (with explicit fuel where the source
loop has no structural termination argument).
-/

/-! ## Python primitives -/

/-- Python `int.from_bytes(bs, 'big')` (used by `XMIT.__get_int`). -/
def get_int (bs : List Nat) : Nat :=
  bs.foldl (fun acc b => 256 * acc + b) 0

/-- Python `int.from_bytes(bs, 'little')` (`XMIT.__get_int` with `'little'`). -/
def get_int_le (bs : List Nat) : Nat :=
  bs.foldr (fun b acc => b + 256 * acc) 0

/-- Python byte-string slice `bs[i:j]` for non-negative `i`, `j`. -/
def py_slice (bs : List Nat) (i j : Nat) : List Nat :=
  (bs.take j).drop i

/-- Python string slice `s[i:j]` with full slice semantics: a negative
index counts from the end of the string, and both endpoints are clamped
to `[0, len]`. -/
def py_slice_str (cs : List Char) (i j : Int) : List Char :=
  let n : Int := cs.length
  let i' : Nat := (if i < 0 then max (n + i) 0 else min i n).toNat
  let j' : Nat := (if j < 0 then max (n + j) 0 else min j n).toNat
  (cs.take j').drop i'

/-- Characters stripped by Python `str.rstrip()` with no argument. -/
def py_isspace (c : Char) : Bool :=
  c = ' ' || c = '\t' || c = '\n' || c = '\r' || c = '\x0b' || c = '\x0c'

/-- Python `str.rstrip()`: remove trailing whitespace. -/
def py_rstrip (cs : List Char) : List Char :=
  (cs.reverse.dropWhile py_isspace).reverse

/-- Python `str.isnumeric()` restricted to the character repertoire
produced by the EBCDIC codec below (ASCII letters, digits and space):
true iff the string is non-empty and all characters are decimal digits. -/
def py_isnumeric (cs : List Char) : Bool :=
  !cs.isEmpty && cs.all (·.isDigit)

/-- Models the external cp1140 EBCDIC→Unicode codec (the translation
tables are an external collaborator of the library).  The mapping is the
invariant EBCDIC core used by the inputs in this development: space
(0x40), digits (0xF0–0xF9) and the three uppercase letter bands
(0xC1–0xC9 A–I, 0xD1–0xD9 J–R, 0xE2–0xE9 S–Z); all other bytes map to a
placeholder, none of which are consulted by any theorem below. -/
def cp1140 (b : Nat) : Char :=
  if b = 0x40 then ' '
  else if 0xF0 ≤ b ∧ b ≤ 0xF9 then Char.ofNat (48 + (b - 0xF0))
  else if 0xC1 ≤ b ∧ b ≤ 0xC9 then Char.ofNat (65 + (b - 0xC1))
  else if 0xD1 ≤ b ∧ b ≤ 0xD9 then Char.ofNat (74 + (b - 0xD1))
  else if 0xE2 ≤ b ∧ b ≤ 0xE9 then Char.ofNat (83 + (b - 0xE2))
  else '\x00'

/-- `bytes.decode(self.ebcdic)` under the modelled codec. -/
def decode_ebcdic (bs : List Nat) : String :=
  ⟨bs.map cp1140⟩

/-! ## `get_recfm` (src/xmi/__init__.py lines 1562–1607) -/

/-- Embedding of `XMIT.get_recfm`: `recfm` is the two-byte DS1RECFM
field; only byte 0 is consulted.  `rfm` starts as `"?"` and the first
letter is replaced for the three recognized `b & 0xC0` patterns, then
the modifier letters are appended for each tested bit. -/
def get_recfm (recfm : List Nat) : String :=
  let flag := recfm.headD 0
  let rfm : String :=
    if flag &&& 0xC0 == 0x40 then "V"
    else if flag &&& 0xC0 == 0x80 then "F"
    else if flag &&& 0xC0 == 0xC0 then "U"
    else "?"
  let rfm := if 0x10 &&& flag == 0x10 then rfm ++ "B" else rfm
  let rfm := if 0x04 &&& flag == 0x04 then rfm ++ "A" else rfm
  let rfm := if 0x02 &&& flag == 0x02 then rfm ++ "M" else rfm
  let rfm := if 0x08 &&& flag == 0x08 then rfm ++ "S" else rfm
  rfm

/-! ## `handle_vb` (src/xmi/__init__.py lines 2786–2796) -/

/-- One run of the `handle_vb` loop, with explicit fuel (the Python
`while` has no structural termination argument).  State: `loc` cursor,
`lrecl` the length read in the previous iteration (initially 10), `data`
the accumulated records.  Each iteration reads a 2-byte big-endian
length at `loc`, appends `vbdata[loc+4 : loc+lrecl]` (the record with
its 4-byte descriptor removed) and advances `loc` by the length; the
loop guard is `loc < len(vbdata) and lrecl > 0`. -/
def handle_vb_fuel (vbdata : List Nat) :
    Nat → Nat → Nat → List (List Nat) → Option (List (List Nat))
  | 0, _, _, _ => none
  | fuel + 1, loc, lrecl, data =>
    if loc < vbdata.length ∧ 0 < lrecl then
      let l := get_int (py_slice vbdata loc (loc + 2))
      handle_vb_fuel vbdata fuel (loc + l) l (data ++ [py_slice vbdata (loc + 4) (loc + l)])
    else
      some data

/-- Embedding of `XMIT.handle_vb`: the first 4 bytes are the block
descriptor word, so the cursor starts at 4; the initial `lrecl` is 10.
The fuel `vbdata.length + 2` is shown sufficient below. -/
def handle_vb (vbdata : List Nat) : Option (List (List Nat)) :=
  handle_vb_fuel vbdata (vbdata.length + 2) 4 10 []

theorem handle_vb_fuel_isSome (vbdata : List Nat) :
    ∀ fuel loc lrecl data, vbdata.length - loc + min lrecl 1 < fuel →
      (handle_vb_fuel vbdata fuel loc lrecl data).isSome := by
  intro fuel
  induction fuel with
  | zero => intro loc lrecl data h; omega
  | succ n ih =>
    intro loc lrecl data h
    rw [handle_vb_fuel]
    split
    · next hc =>
      apply ih
      rcases hc with ⟨hloc, hl⟩
      have hmin : min lrecl 1 = 1 := by omega
      rcases Nat.eq_zero_or_pos (get_int (py_slice vbdata loc (loc + 2))) with h0 | h1
      · rw [h0]; omega
      · have : min (get_int (py_slice vbdata loc (loc + 2))) 1 = 1 := by omega
        omega
    · simp

/-- C10: `handle_vb` terminates on every input byte string: starting
after the 4-byte block descriptor word it repeatedly reads a 2-byte
big-endian record length, appends the record bytes with the 4-byte
record descriptor removed, and stops as soon as the length read is 0 or
the cursor reaches the end of the data (a read starting past the end
yields length 0).  Formally: the fuelled embedding of the loop completes
within `vbdata.length + 2` iterations on every input. -/
theorem handle_vb_total (vbdata : List Nat) : (handle_vb vbdata).isSome := by
  apply handle_vb_fuel_isSome
  omega

/-- C7: for every byte `b`, `get_recfm [b, 0]` yields a string whose
first character is `'V'` when `(b & 0xC0) == 0x40`, `'F'` when
`(b & 0xC0) == 0x80`, `'U'` when `(b & 0xC0) == 0xC0` and the distinct
fourth character `'?'` otherwise, followed by `'B'` iff `b & 0x10`, then
`'A'` iff `b & 0x04`, then `'M'` iff `b & 0x02`, then `'S'` iff
`b & 0x08`. -/
theorem get_recfm_bits : ∀ b : Fin 256,
    (get_recfm [b.val, 0]).data =
      (if b.val &&& 0xC0 = 0x40 then 'V'
       else if b.val &&& 0xC0 = 0x80 then 'F'
       else if b.val &&& 0xC0 = 0xC0 then 'U'
       else '?') ::
      ((if b.val &&& 0x10 = 0 then [] else ['B']) ++
       (if b.val &&& 0x04 = 0 then [] else ['A']) ++
       (if b.val &&& 0x02 = 0 then [] else ['M']) ++
       (if b.val &&& 0x08 = 0 then [] else ['S'])) ∧
    '?' ∉ ['V', 'F', 'U'] := by
  set_option maxRecDepth 10000 in decide

/-! ## XMI segment loop (src/xmi/__init__.py lines 1714–1791, `parse_xmi`) -/

/-- One XMI segment as consumed by the `parse_xmi` loop: the one-byte
flags field and the `L - 2` payload bytes
`xmit_object[loc + 2 : loc + section_length]`. -/
structure Segment where
  flag : Nat
  payload : List Nat
deriving DecidableEq, Repr

/-- One iteration of the `parse_xmi` stream loop for a fixed current
dataset, acting on `(records, record_data)`: a segment with flag bit
0x20 is (part of) a control record and is dispatched to the `INMR##`
handlers, leaving the data state untouched; otherwise the payload is
appended to `record_data` and, when flag bit 0x40 (last segment) is set,
the buffer is pushed onto the dataset's record list and cleared. -/
def xmi_seg_step (st : List (List Nat) × List Nat) (s : Segment) :
    List (List Nat) × List Nat :=
  if s.flag &&& 0x20 == 0x20 then st
  else
    let record_data := st.2 ++ s.payload
    if s.flag &&& 0x40 == 0x40 then (st.1 ++ [record_data], [])
    else (st.1, record_data)

/-- The `parse_xmi` segment loop run over a list of segments, starting
from an empty record list and an empty concatenation buffer. -/
def parse_xmi_records (segs : List Segment) : List (List Nat) × List Nat :=
  segs.foldl xmi_seg_step ([], [])

theorem xmi_seg_invariant (segs : List Segment) :
    ∀ st : List (List Nat) × List Nat,
      (segs.foldl xmi_seg_step st).1.flatten ++ (segs.foldl xmi_seg_step st).2 =
        st.1.flatten ++ st.2 ++
          ((segs.filter (fun s => s.flag &&& 0x20 != 0x20)).map Segment.payload).flatten := by
  induction segs with
  | nil => intro st; simp
  | cons s rest ih =>
    intro st
    rw [List.foldl_cons, ih]
    by_cases h20 : s.flag &&& 0x20 = 0x20
    · simp [xmi_seg_step, h20, List.filter_cons]
    · by_cases h40 : s.flag &&& 0x40 = 0x40 <;>
        simp [xmi_seg_step, h20, h40, List.filter_cons]

/-- C3: for every run of the XMI data-segment loop in which each logical
record's final segment carries the last-segment flag 0x40 (equivalently,
the concatenation buffer is empty when the stream ends), the
concatenation, in list order, of the logical records stored for the
dataset equals the concatenation of the payloads of all of its
non-control data segments in arrival order. -/
theorem parse_xmi_roundtrip (segs : List Segment)
    (h : (parse_xmi_records segs).2 = []) :
    (parse_xmi_records segs).1.flatten =
      ((segs.filter (fun s => s.flag &&& 0x20 != 0x20)).map Segment.payload).flatten := by
  have hinv := xmi_seg_invariant segs ([], [])
  rw [parse_xmi_records] at h ⊢
  rw [h] at hinv
  simpa using hinv

/-- Witness for C3 at a concrete stream: two data segments forming one
logical record (flags 0x80 then 0x40), a control segment (flag 0x20),
and a one-segment record (flag 0xC0). -/
theorem parse_xmi_roundtrip_witness :
    (parse_xmi_records [⟨0x80, [1, 2]⟩, ⟨0x40, [3]⟩, ⟨0x20, [9, 9]⟩, ⟨0xC0, [4, 5]⟩]).2 = [] ∧
    (parse_xmi_records [⟨0x80, [1, 2]⟩, ⟨0x40, [3]⟩, ⟨0x20, [9, 9]⟩, ⟨0xC0, [4, 5]⟩]).1.flatten =
      (([⟨0x80, [1, 2]⟩, ⟨0x40, [3]⟩, ⟨0x20, [9, 9]⟩, ⟨0xC0, [4, 5]⟩] : List Segment).filter
          (fun s => s.flag &&& 0x20 != 0x20) |>.map Segment.payload).flatten :=
  ⟨by decide, parse_xmi_roundtrip _ (by decide)⟩

/-! ## Tape block-header check (src/xmi/__init__.py lines 2067–2261, `parse_tape`) -/

/-- One block-header step of the `parse_tape` loop, modelling the header
decode, the flag validity check and the cursor advance: the 6-byte
header at `loc` holds the current block data length (2 bytes
little-endian at offset 0), the previous block length (offset 2) and the
flags halfword (big-endian at offset 4).  When none of 0x8000 (NEWREC),
0x4000 (EOF), 0x2000 (ENDREC) is set the parser raises (`none`);
otherwise the loop body runs and the cursor advances past the header and
the declared `cur_blocksize` data bytes (`loc += cur_blocksize + 6`). -/
def tape_step (tape : List Nat) (loc : Nat) : Option Nat :=
  let cur_blocksize := get_int_le (py_slice tape loc (loc + 2))
  let flags := get_int (py_slice tape (loc + 4) (loc + 6))
  if 0x8000 ≠ flags &&& 0x8000 ∧ 0x4000 ≠ flags &&& 0x4000 ∧ 0x2000 ≠ flags &&& 0x2000 then
    none
  else
    some (loc + cur_blocksize + 6)

theorem and_two_pow_eq_iff_testBit (n i : Nat) :
    n &&& 2 ^ i = 2 ^ i ↔ n.testBit i := by
  rw [Nat.and_two_pow]
  rcases h : n.testBit i <;> simp [h]
  exact fun hz => pow_ne_zero i (two_ne_zero) hz.symm

/-- C8: while scanning a virtual tape, the parser rejects the input at a
6-byte block header if and only if the header's flag halfword has none
of the bits 0x8000 (NEWREC), 0x4000 (EOF), 0x2000 (ENDREC) set; any
header with at least one of these bits set is accepted and its declared
number of data bytes is consumed (the cursor moves past the 6-byte
header plus `cur_blocksize` bytes). -/
theorem parse_tape_flag_check (tape : List Nat) (loc : Nat) :
    (tape_step tape loc = none ↔
      (¬ (get_int (py_slice tape (loc + 4) (loc + 6))).testBit 15 ∧
       ¬ (get_int (py_slice tape (loc + 4) (loc + 6))).testBit 14 ∧
       ¬ (get_int (py_slice tape (loc + 4) (loc + 6))).testBit 13)) ∧
    (((get_int (py_slice tape (loc + 4) (loc + 6))).testBit 15 ∨
      (get_int (py_slice tape (loc + 4) (loc + 6))).testBit 14 ∨
      (get_int (py_slice tape (loc + 4) (loc + 6))).testBit 13) →
      tape_step tape loc = some (loc + get_int_le (py_slice tape loc (loc + 2)) + 6)) := by
  have h15 := and_two_pow_eq_iff_testBit (get_int (py_slice tape (loc + 4) (loc + 6))) 15
  have h14 := and_two_pow_eq_iff_testBit (get_int (py_slice tape (loc + 4) (loc + 6))) 14
  have h13 := and_two_pow_eq_iff_testBit (get_int (py_slice tape (loc + 4) (loc + 6))) 13
  norm_num at h15 h14 h13
  constructor
  · rw [tape_step]
    split
    · next hc =>
      simp only [true_iff]
      rw [← h15, ← h14, ← h13]
      exact ⟨fun h => hc.1 h.symm, fun h => hc.2.1 h.symm, fun h => hc.2.2 h.symm⟩
    · next hc =>
      simp only [reduceCtorEq, false_iff]
      intro hbits
      rw [← h15, ← h14, ← h13] at hbits
      push_neg at hc
      rcases Classical.em (0x8000 = get_int (py_slice tape (loc + 4) (loc + 6)) &&& 0x8000) with
        h | h
      · exact hbits.1 h.symm
      rcases Classical.em (0x4000 = get_int (py_slice tape (loc + 4) (loc + 6)) &&& 0x4000) with
        h' | h'
      · exact hbits.2.1 h'.symm
      · exact hbits.2.2 (hc h h').symm
  · intro hbits
    rw [tape_step]
    split
    · next hc =>
      exfalso
      rw [← h15, ← h14, ← h13] at hbits
      rcases hbits with h | h | h
      · exact hc.1 h.symm
      · exact hc.2.1 h.symm
      · exact hc.2.2 h.symm
    · rfl

/-- Witness for C8: a header whose flags halfword is 0x2000 (ENDREC) and
block length 3 is accepted and advances the cursor by 9; one with flags
0x0000 is rejected. -/
theorem parse_tape_flag_check_witness :
    tape_step [3, 0, 0, 0, 0x20, 0, 7, 7, 7] 0 = some 9 ∧
    tape_step [3, 0, 0, 0, 0, 0, 7, 7, 7] 0 = none :=
  ⟨(parse_tape_flag_check [3, 0, 0, 0, 0x20, 0, 7, 7, 7] 0).2 (by decide),
   (parse_tape_flag_check [3, 0, 0, 0, 0, 0, 7, 7, 7] 0).1.mpr (by decide)⟩

/-! ## `get_member_decoded` (src/xmi/__init__.py lines 900–922) and
`get_alias` (lines 1074–1094) -/

/-- A member entry of a parsed PDS, as stored in the `members` dict:
the alias flag, the TTR (absent for synthesized `DELETED{n}` entries),
the optional decoded text rendering and the optional raw EBCDIC data. -/
structure MemberEntry where
  «alias» : Bool
  ttr : Option Nat
  text : Option String
  data : Option (List Nat)
deriving DecidableEq, Repr

/-- Result of `get_member_decoded`: a UTF-8 string or raw bytes
(the empty byte string is `bin []`). -/
inductive MemberContent
  | txt (s : String)
  | bin (bs : List Nat)
deriving DecidableEq, Repr

/-- The `members` dict of one PDS, as an insertion-ordered association
list, and the Python dict lookup `members[name]` (`none` models the
`KeyError` path). -/
def members_find (members : List (String × MemberEntry)) (name : String) :
    Option MemberEntry :=
  (members.find? (fun p => p.1 == name)).map (·.2)

/-- Embedding of `XMIT.get_alias`: look up the alias's TTR, then return
the name of the first member that has a `ttr` key, is not an alias and
carries the same TTR (`None` when the scan finds nothing; a missing
member or TTR raises in Python, modelled as `none`). -/
def get_alias_name (members : List (String × MemberEntry)) (member : String) :
    Option String :=
  (members_find members member).bind fun e =>
    e.ttr.bind fun alias_ttr =>
      (members.find? (fun p => p.2.ttr == some alias_ttr && !p.2.«alias»)).map (·.1)

/-- Embedding of `XMIT.get_member_decoded`: resolve an alias to its
target name first; then return the member's `text` if present, else its
`data` if present, else the empty byte string `b''` (the source comments
that RECFM `U` members produce no `data` item). -/
def get_member_decoded (members : List (String × MemberEntry)) (member : String) :
    Option MemberContent :=
  match members_find members member with
  | none => none
  | some e0 =>
    let resolved : Option MemberEntry :=
      if e0.«alias» then
        match get_alias_name members member with
        | some n => members_find members n
        | none => none
      else some e0
    match resolved with
    | none => none
    | some rfile =>
      match rfile.text with
      | some t => some (.txt t)
      | none =>
        match rfile.data with
        | some d => some (.bin d)
        | none => some (.bin [])

/-- C9: for every PDS member that, after parsing, has neither a decoded
text rendering nor raw data (as happens for some record-format-U
members), `get_member_decoded` returns the empty byte string `b''`
rather than raising an error. -/
theorem get_member_decoded_empty (members : List (String × MemberEntry))
    (member : String) (e : MemberEntry)
    (hfind : members_find members member = some e) (halias : e.«alias» = false)
    (htext : e.text = none) (hdata : e.data = none) :
    get_member_decoded members member = some (.bin []) := by
  rw [get_member_decoded, hfind]
  simp [halias, htext, hdata]

/-- Witness for C9: a one-member PDS whose only member has no text and
no data decodes to the empty byte string. -/
theorem get_member_decoded_empty_witness :
    get_member_decoded [("LOADMOD", ⟨false, some 1, none, none⟩)] "LOADMOD" =
      some (.bin []) :=
  get_member_decoded_empty [("LOADMOD", ⟨false, some 1, none, none⟩)] "LOADMOD"
    ⟨false, some 1, none, none⟩ (by decide) rfl rfl rfl

/-! ## `__fix_circular_alias` (src/xmi/__init__.py lines 2747–2777),
called at the start of `__process_blocks` (line 2594) -/

/-- One directory entry as visited by `__fix_circular_alias`: name, TTR
and alias flag (at this point in parsing every member carries a TTR). -/
structure DirMember where
  name : String
  ttr : Nat
  «alias» : Bool
deriving DecidableEq, Repr

/-- Embedding of `XMIT.__member_ttrs`: the TTRs held by non-alias
members, in member order (the Python dict maps TTR → name; only key
membership is consulted by `__fix_circular_alias`). -/
def member_ttrs (ms : List DirMember) : List Nat :=
  (ms.filter (fun m => !m.«alias»)).map (fun m => m.ttr)

/-- One iteration of the `__fix_circular_alias` loop on the state
`(known TTRs, members processed so far)`: an alias whose TTR is not a
known key is promoted (its alias flag is cleared) and its TTR recorded;
every other member is kept unchanged. -/
def fix_step : List Nat × List DirMember → DirMember → List Nat × List DirMember
  | (ttrs, done), m =>
    if m.«alias» && !ttrs.contains m.ttr then
      (ttrs ++ [m.ttr], done ++ [{ m with «alias» := false }])
    else
      (ttrs, done ++ [m])

/-- Embedding of `XMIT.__fix_circular_alias`: fold the repair step over
the members, seeding the known-TTR set with the non-alias members'
TTRs. -/
def fix_circular_alias (ms : List DirMember) : List DirMember :=
  (ms.foldl fix_step (member_ttrs ms, [])).2

/-- Embedding of the scan in `XMIT.get_alias` (lines 1074–1094): given
the TTR already looked up from the alias's own directory entry, return
the first member that is not an alias and has the same TTR. -/
def get_alias_member (ms : List DirMember) (alias_ttr : Nat) : Option DirMember :=
  ms.find? (fun x => !x.«alias» && x.ttr == alias_ttr)

/-- The recursion underlying the `fix_step` fold (proof helper). -/
def fix_go (s : List Nat) : List DirMember → List DirMember
  | [] => []
  | m :: rest =>
    if m.«alias» && !s.contains m.ttr then
      { m with «alias» := false } :: fix_go (s ++ [m.ttr]) rest
    else
      m :: fix_go s rest

theorem foldl_fix_step (ms : List DirMember) :
    ∀ s acc, (ms.foldl fix_step (s, acc)).2 = acc ++ fix_go s ms := by
  induction ms with
  | nil => intro s acc; simp [fix_go]
  | cons m rest ih =>
    intro s acc
    rw [List.foldl_cons]
    by_cases h : m.«alias» && !s.contains m.ttr
    · have hstep : fix_step (s, acc) m =
          (s ++ [m.ttr], acc ++ [{ m with «alias» := false }]) := by
        rw [fix_step, if_pos h]
      have hgo : fix_go s (m :: rest) =
          { m with «alias» := false } :: fix_go (s ++ [m.ttr]) rest := by
        rw [fix_go, if_pos h]
      rw [hstep, hgo, ih]
      simp
    · have hstep : fix_step (s, acc) m = (s, acc ++ [m]) := by
        rw [fix_step, if_neg h]
      have hgo : fix_go s (m :: rest) = m :: fix_go s rest := by
        rw [fix_go, if_neg h]
      rw [hstep, hgo, ih]
      simp

theorem fix_go_ttr_mem (t : Nat) :
    ∀ (ms : List DirMember) (s : List Nat) (x : DirMember),
      x ∈ fix_go s ms → x.ttr = t → ∃ y ∈ ms, y.ttr = t := by
  intro ms
  induction ms with
  | nil => intro s x hx; simp [fix_go] at hx
  | cons m rest ih =>
    intro s x hx ht
    rw [fix_go] at hx
    by_cases h : m.«alias» && !s.contains m.ttr
    · rw [if_pos h] at hx
      rcases List.mem_cons.mp hx with hx | hx
      · rw [hx] at ht
        exact ⟨m, List.mem_cons_self m rest, ht⟩
      · obtain ⟨y, hy, hyt⟩ := ih (s ++ [m.ttr]) x hx ht
        exact ⟨y, List.mem_cons_of_mem m hy, hyt⟩
    · rw [if_neg h] at hx
      rcases List.mem_cons.mp hx with hx | hx
      · rw [hx] at ht
        exact ⟨m, List.mem_cons_self m rest, ht⟩
      · obtain ⟨y, hy, hyt⟩ := ih s x hx ht
        exact ⟨y, List.mem_cons_of_mem m hy, hyt⟩

theorem member_ttrs_cons (m : DirMember) (rest : List DirMember) :
    member_ttrs (m :: rest) =
      if m.«alias» then member_ttrs rest else m.ttr :: member_ttrs rest := by
  by_cases h : m.«alias» <;> simp [member_ttrs, List.filter_cons, h]

theorem fix_go_countP (t : Nat) :
    ∀ (ms : List DirMember) (s : List Nat), member_ttrs ms ⊆ s →
      (fix_go s ms).countP (fun x => !x.«alias» && x.ttr == t) =
        if t ∈ s then ms.countP (fun x => !x.«alias» && x.ttr == t)
        else if ms.any (fun x => x.ttr == t) then 1 else 0 := by
  intro ms
  induction ms with
  | nil =>
    intro s _
    simp [fix_go]
  | cons m rest ih =>
    intro s hsub
    have hsubrest : member_ttrs rest ⊆ s := by
      intro a ha
      apply hsub
      rw [member_ttrs_cons]
      by_cases h : m.«alias» <;> simp [h, ha]
    rw [fix_go]
    by_cases hma : m.«alias»
    · by_cases hmem : m.ttr ∈ s
      · have hcond : (m.«alias» && !s.contains m.ttr) = false := by
          simp [hma]
          exact hmem
        rw [hcond, if_neg (by simp)]
        rw [List.countP_cons, ih s hsubrest]
        by_cases ht : t ∈ s
        · simp [ht, List.countP_cons, hma]
        · have hne : m.ttr ≠ t := fun h => ht (h ▸ hmem)
          simp [ht, hma, List.any_cons, hne]
      · have hcond : (m.«alias» && !s.contains m.ttr) = true := by
          simp [hma]
          exact hmem
        rw [hcond, if_pos rfl]
        rw [List.countP_cons, ih (s ++ [m.ttr]) (fun a ha => by
          simp [List.mem_append]
          exact Or.inl (hsubrest ha))]
        by_cases hteq : m.ttr = t
        · have hts' : t ∈ s ++ [m.ttr] := by simp [hteq]
          have hts : t ∉ s := fun h => hmem (hteq ▸ h)
          have hrest0 : rest.countP (fun x => !x.«alias» && x.ttr == t) = 0 := by
            rw [List.countP_eq_zero]
            intro a ha hpa
            simp at hpa
            apply hts
            apply hsubrest
            rw [member_ttrs]
            simp [List.mem_filter, List.mem_map]
            exact ⟨a, ⟨ha, hpa.1⟩, hpa.2⟩
          simp [hts', hrest0, hts, List.any_cons, hteq]
        · have hts' : (t ∈ s ++ [m.ttr]) ↔ t ∈ s := by
            simp [List.mem_append]
            exact fun h => absurd h.symm hteq
          by_cases ht : t ∈ s
          · simp [hts'.mpr ht, ht, List.countP_cons, hma, hteq]
          · have : t ∉ s ++ [m.ttr] := fun h => ht (hts'.mp h)
            simp [this, ht, List.any_cons, hteq]
    · have hmem : m.ttr ∈ s := by
        apply hsub
        rw [member_ttrs_cons, if_neg (by simp [hma])]
        exact List.mem_cons_self _ _
      have hcond : (m.«alias» && !s.contains m.ttr) = false := by simp [hma]
      rw [hcond, if_neg (by simp)]
      rw [List.countP_cons, ih s hsubrest]
      by_cases ht : t ∈ s
      · simp [ht, List.countP_cons]
      · have hne : m.ttr ≠ t := fun h => ht (h ▸ hmem)
        simp [ht, List.any_cons, hne, hma]

/-- C4: after `__fix_circular_alias` has run on a parsed PDS whose
non-alias directory entries carry pairwise distinct TTRs, every member's
TTR matches exactly one non-alias (canonical) member — a TTR all of
whose holders were aliases has had exactly one of them promoted to
canonical — and for every member still marked as an alias, the
`get_alias` scan returns a non-alias member of the same PDS whose TTR
equals the alias's TTR. -/
theorem fix_circular_alias_sound (ms : List DirMember)
    (hnd : (member_ttrs ms).Nodup) :
    (∀ m ∈ fix_circular_alias ms,
        (fix_circular_alias ms).countP
          (fun x => !x.«alias» && x.ttr == m.ttr) = 1) ∧
    (∀ m ∈ fix_circular_alias ms, m.«alias» = true →
        ∃ x ∈ fix_circular_alias ms,
          get_alias_member (fix_circular_alias ms) m.ttr = some x ∧
          x.«alias» = false ∧ x.ttr = m.ttr) := by
  have hout : fix_circular_alias ms = fix_go (member_ttrs ms) ms := by
    rw [fix_circular_alias, foldl_fix_step]
    simp
  have hcount : ∀ m ∈ fix_circular_alias ms,
      (fix_circular_alias ms).countP (fun x => !x.«alias» && x.ttr == m.ttr) = 1 := by
    intro m hm
    rw [hout] at hm ⊢
    rw [fix_go_countP m.ttr ms (member_ttrs ms) (fun a ha => ha)]
    by_cases ht : m.ttr ∈ member_ttrs ms
    · rw [if_pos ht]
      have h1 : ms.countP (fun x => !x.«alias» && x.ttr == m.ttr) =
          List.count m.ttr (member_ttrs ms) := by
        rw [List.count_eq_countP, member_ttrs, List.countP_map, List.countP_filter]
        apply List.countP_congr
        intro x _
        simp [Function.comp]
        exact and_comm
      rw [h1, List.count_eq_one_of_mem hnd ht]
    · rw [if_neg ht]
      obtain ⟨y, hy, hyt⟩ := fix_go_ttr_mem m.ttr ms (member_ttrs ms) m hm rfl
      have : ms.any (fun x => x.ttr == m.ttr) = true := by
        rw [List.any_eq_true]
        exact ⟨y, hy, by simp [hyt]⟩
      rw [if_pos this]
  refine ⟨hcount, ?_⟩
  intro m hm _
  have h1 := hcount m hm
  have hpos : 0 < (fix_circular_alias ms).countP
      (fun x => !x.«alias» && x.ttr == m.ttr) := by omega
  rw [List.countP_pos_iff] at hpos
  obtain ⟨a, ha, hpa⟩ := hpos
  have hfind : (get_alias_member (fix_circular_alias ms) m.ttr).isSome := by
    rw [get_alias_member, List.find?_isSome]
    exact ⟨a, ha, hpa⟩
  obtain ⟨x, hx⟩ := Option.isSome_iff_exists.mp hfind
  have hpx := List.find?_some hx
  simp only [Bool.and_eq_true, Bool.not_eq_true', beq_iff_eq] at hpx
  exact ⟨x, List.mem_of_find?_eq_some hx, hx, hpx.1, hpx.2⟩

/-- Witness for C4: a PDS whose two members `A` and `B` are both aliases
with the same TTR 5 (a fully circular chain): exactly one canonical
member with TTR 5 exists after repair, and the `get_alias` scan resolves
the remaining alias `B` to it. -/
theorem fix_circular_alias_sound_witness :
    (fix_circular_alias [⟨"A", 5, true⟩, ⟨"B", 5, true⟩]).countP
      (fun x => !x.«alias» && x.ttr == 5) = 1 ∧
    (∃ x ∈ fix_circular_alias [⟨"A", 5, true⟩, ⟨"B", 5, true⟩],
        get_alias_member (fix_circular_alias [⟨"A", 5, true⟩, ⟨"B", 5, true⟩]) 5 = some x ∧
        x.«alias» = false ∧ x.ttr = 5) :=
  ⟨(fix_circular_alias_sound [⟨"A", 5, true⟩, ⟨"B", 5, true⟩] (by decide)).1
      ⟨"B", 5, true⟩ (by decide),
   (fix_circular_alias_sound [⟨"A", 5, true⟩, ⟨"B", 5, true⟩] (by decide)).2
      ⟨"B", 5, true⟩ (by decide) rfl⟩

/-! ## `get_tape_date` (src/xmi/__init__.py lines 2333–2347) -/

/-- Python `int(c)` for a single decimal-digit character. -/
def char_digit_val (c : Char) : Nat := c.toNat - 48

/-- Numeric value of a decimal-digit string, as read by
`datetime.strptime` for the `%Y` and `%j` fields. -/
def digits_to_nat (cs : List Char) : Nat :=
  cs.foldl (fun a c => 10 * a + char_digit_val c) 0

/-- Embedding of `XMIT.get_tape_date` up to (and including) the string
transformation fed to `strptime('%Y%j')`: a leading space becomes the
literal `"19"`, any other leading (digit) character `c` becomes
`str(20 + int(c))`, and a trailing `'0'` character is replaced by `'1'`. -/
def get_tape_date (tape_date : List Char) : List Char :=
  let td :=
    if tape_date.head? = some ' ' then ['1', '9'] ++ tape_date.tail
    else Nat.toDigits 10 (20 + char_digit_val (tape_date.headD ' ')) ++ tape_date.tail
  if td.getLast? = some '0' then td.dropLast ++ ['1'] else td

/-- The year parsed by `strptime('%Y%j')` from the transformed string
(first four characters). -/
def tape_date_year (s : List Char) : Nat := digits_to_nat (s.take 4)

/-- The day-of-year parsed by `strptime('%Y%j')` from the transformed
string (everything after the four year characters). -/
def tape_date_doy (s : List Char) : Nat := digits_to_nat (s.drop 4)

/-- C6 counterexample: the claim says day-of-year `000` is coerced to
`001` while every other day-of-year is unchanged, but the code replaces
a trailing `'0'` character wherever it occurs: the valid input
`" 99010"` (1999, day 010) decodes to day-of-year 11, not 10. -/
theorem get_tape_date_trailing_zero_cex :
    get_tape_date (" 99010".data) = "1999011".data ∧
    tape_date_doy (get_tape_date (" 99010".data)) = 11 ∧
    digits_to_nat ((" 99010".data).drop 3) = 10 ∧ (11 : Nat) ≠ 10 := by
  decide

theorem char_digit_val_digitChar (d : Nat) (h : d < 10) :
    char_digit_val (Nat.digitChar d) = d := by
  interval_cases d <;> rfl

theorem digitChar_eq_zero_iff (d : Nat) (h : d < 10) :
    Nat.digitChar d = '0' ↔ d = 0 := by
  interval_cases d <;> simp <;> decide

theorem toDigits_twenty_add (c : Nat) (h : c < 10) :
    Nat.toDigits 10 (20 + c) = ['2', Nat.digitChar c] := by
  interval_cases c <;> rfl

theorem char_digit_val_one : char_digit_val '1' = 1 := rfl

theorem char_digit_val_nine : char_digit_val '9' = 9 := rfl

theorem char_digit_val_two : char_digit_val '2' = 2 := rfl

/-- C6 amended: `get_tape_date` expands a six-character `cyyddd` field
to a four-digit year (leading space means century 19; a digit `c` means
century `20 + c`), and coerces the day-of-year by replacing a trailing
`'0'` digit with `'1'` -- so `000` becomes `001` as the claim says, but
every other day-of-year ending in `0` is also changed (`dd0` becomes
`dd1`); a day-of-year not ending in `0` is preserved. -/
theorem get_tape_date_amended (c y1 y2 d1 d2 d3 : Nat)
    (hc : c < 10) (hy1 : y1 < 10) (hy2 : y2 < 10)
    (hd1 : d1 < 10) (hd2 : d2 < 10) (hd3 : d3 < 10) :
    (tape_date_year (get_tape_date (' ' :: [y1, y2, d1, d2, d3].map Nat.digitChar)) =
        1900 + 10 * y1 + y2 ∧
     tape_date_doy (get_tape_date (' ' :: [y1, y2, d1, d2, d3].map Nat.digitChar)) =
        (if d3 = 0 then 100 * d1 + 10 * d2 + 1 else 100 * d1 + 10 * d2 + d3)) ∧
    (tape_date_year (get_tape_date ([c, y1, y2, d1, d2, d3].map Nat.digitChar)) =
        100 * (20 + c) + 10 * y1 + y2 ∧
     tape_date_doy (get_tape_date ([c, y1, y2, d1, d2, d3].map Nat.digitChar)) =
        (if d3 = 0 then 100 * d1 + 10 * d2 + 1 else 100 * d1 + 10 * d2 + d3)) := by
  have hchar : (Nat.digitChar d3 = '0') ↔ d3 = 0 := digitChar_eq_zero_iff d3 hd3
  have hspace : Nat.digitChar c ≠ ' ' := by interval_cases c <;> decide
  constructor
  · have hL : (['1', '9', Nat.digitChar y1, Nat.digitChar y2, Nat.digitChar d1,
        Nat.digitChar d2, Nat.digitChar d3] : List Char).getLast? =
        some (Nat.digitChar d3) := rfl
    have htd : get_tape_date (' ' :: [y1, y2, d1, d2, d3].map Nat.digitChar) =
        if d3 = 0 then
          ['1', '9', Nat.digitChar y1, Nat.digitChar y2, Nat.digitChar d1,
            Nat.digitChar d2, '1']
        else
          ['1', '9', Nat.digitChar y1, Nat.digitChar y2, Nat.digitChar d1,
            Nat.digitChar d2, Nat.digitChar d3] := by
      rw [get_tape_date,
        if_pos (show (' ' :: [y1, y2, d1, d2, d3].map Nat.digitChar).head? = some ' ' from rfl)]
      simp only [List.map, List.tail_cons, List.cons_append, List.nil_append]
      by_cases h0 : d3 = 0
      · rw [if_pos (by rw [hL]; exact congrArg some (hchar.mpr h0)), if_pos h0]
        rfl
      · rw [if_neg (fun hcond => h0 (hchar.mp (Option.some.inj (hL.symm.trans hcond)))),
          if_neg h0]
    by_cases h0 : d3 = 0
    · rw [htd, if_pos h0]
      refine ⟨?_, ?_⟩
      · rw [tape_date_year]
        simp [digits_to_nat, char_digit_val_one, char_digit_val_nine,
          char_digit_val_digitChar y1 hy1, char_digit_val_digitChar y2 hy2]
        omega
      · rw [tape_date_doy, if_pos h0]
        simp [digits_to_nat, char_digit_val_one,
          char_digit_val_digitChar d1 hd1, char_digit_val_digitChar d2 hd2]
        omega
    · rw [htd, if_neg h0]
      refine ⟨?_, ?_⟩
      · rw [tape_date_year]
        simp [digits_to_nat, char_digit_val_one, char_digit_val_nine,
          char_digit_val_digitChar y1 hy1, char_digit_val_digitChar y2 hy2]
        omega
      · rw [tape_date_doy, if_neg h0]
        simp [digits_to_nat, char_digit_val_digitChar d1 hd1,
          char_digit_val_digitChar d2 hd2, char_digit_val_digitChar d3 hd3]
        omega
  · have hL : (['2', Nat.digitChar c, Nat.digitChar y1, Nat.digitChar y2, Nat.digitChar d1,
        Nat.digitChar d2, Nat.digitChar d3] : List Char).getLast? =
        some (Nat.digitChar d3) := rfl
    have htd : get_tape_date ([c, y1, y2, d1, d2, d3].map Nat.digitChar) =
        if d3 = 0 then
          ['2', Nat.digitChar c, Nat.digitChar y1, Nat.digitChar y2, Nat.digitChar d1,
            Nat.digitChar d2, '1']
        else
          ['2', Nat.digitChar c, Nat.digitChar y1, Nat.digitChar y2, Nat.digitChar d1,
            Nat.digitChar d2, Nat.digitChar d3] := by
      rw [get_tape_date]
      simp only [List.map, List.head?_cons, List.headD_cons, List.tail_cons]
      rw [if_neg (fun h => hspace (Option.some.inj h))]
      rw [char_digit_val_digitChar c hc, toDigits_twenty_add c hc]
      simp only [List.cons_append, List.nil_append]
      by_cases h0 : d3 = 0
      · rw [if_pos (by rw [hL]; exact congrArg some (hchar.mpr h0)), if_pos h0]
        rfl
      · rw [if_neg (fun hcond => h0 (hchar.mp (Option.some.inj (hL.symm.trans hcond)))),
          if_neg h0]
    by_cases h0 : d3 = 0
    · rw [htd, if_pos h0]
      refine ⟨?_, ?_⟩
      · rw [tape_date_year]
        simp [digits_to_nat, char_digit_val_two, char_digit_val_digitChar c hc,
          char_digit_val_digitChar y1 hy1, char_digit_val_digitChar y2 hy2]
        omega
      · rw [tape_date_doy, if_pos h0]
        simp [digits_to_nat, char_digit_val_one,
          char_digit_val_digitChar d1 hd1, char_digit_val_digitChar d2 hd2]
        omega
    · rw [htd, if_neg h0]
      refine ⟨?_, ?_⟩
      · rw [tape_date_year]
        simp [digits_to_nat, char_digit_val_two, char_digit_val_digitChar c hc,
          char_digit_val_digitChar y1 hy1, char_digit_val_digitChar y2 hy2]
        omega
      · rw [tape_date_doy, if_neg h0]
        simp [digits_to_nat, char_digit_val_digitChar d1 hd1,
          char_digit_val_digitChar d2 hd2, char_digit_val_digitChar d3 hd3]
        omega

/-- Witness for C6 (amended) at `c = 0`, `yy = 85`, `ddd = 365`:
`"085365"` decodes to year 2085, day-of-year 365. -/
theorem get_tape_date_amended_witness :
    tape_date_year (get_tape_date ([0, 8, 5, 3, 6, 5].map Nat.digitChar)) =
        100 * (20 + 0) + 10 * 8 + 5 ∧
    tape_date_doy (get_tape_date ([0, 8, 5, 3, 6, 5].map Nat.digitChar)) =
        (if (5 : Nat) = 0 then 100 * 3 + 10 * 6 + 1 else 100 * 3 + 10 * 6 + 5) :=
  (get_tape_date_amended 0 8 5 3 6 5 (by decide) (by decide) (by decide)
    (by decide) (by decide) (by decide)).2

/-! ## `convert_text_file` (src/xmi/__init__.py lines 1492–1521) -/

/-- Embedding of `XMIT.convert_text_file`: decode the EBCDIC buffer,
return it with a final newline when `recl < 1`; otherwise walk the
decoded string at offsets `i = 0, recl, 2*recl, …` (Python
`range(0, len, recl)`, which has `⌈len / recl⌉ = (len + recl - 1) / recl`
elements for `recl ≥ 1`); at each offset, when
`asciifile[i+recl-8 : i+recl]` is numeric and `unnum` is set append
`asciifile[i : i+recl-8].rstrip()`, else append
`asciifile[i : i+recl].rstrip()`; join with `'\n'` and terminate with
`'\n'`. -/
def convert_text_file (ebcdic_text : List Nat) (recl : Nat) (unnum : Bool) : String :=
  let asciifile := ebcdic_text.map cp1140
  if recl < 1 then ⟨asciifile ++ ['\n']⟩
  else
    let seq_file := (List.range' 0 ((asciifile.length + recl - 1) / recl) recl).map (fun (i : Nat) =>
      if py_isnumeric (py_slice_str asciifile ((i : Int) + recl - 8) ((i : Int) + recl)) && unnum
      then py_rstrip (py_slice_str asciifile (i : Int) ((i : Int) + recl - 8))
      else py_rstrip (py_slice_str asciifile (i : Int) ((i : Int) + recl)))
    ⟨List.intercalate ['\n'] seq_file ++ ['\n']⟩

/-- Structural worker for `spec_chunks`: the first argument bounds the
number of remaining characters, so the recursion is structural and the
kernel can evaluate it. -/
def spec_chunks_go (recl : Nat) : Nat → List Char → List (List Char)
  | _, [] => []
  | 0, _ => []
  | fuel + 1, cs => cs.take recl :: spec_chunks_go recl fuel (cs.drop recl)

/-- The decoded buffer split into `recl`-character chunks (the last
chunk may be shorter), as the C5 claim describes; meaningful for
`recl ≥ 1` (the only use below). -/
def spec_chunks (recl : Nat) (cs : List Char) : List (List Char) :=
  spec_chunks_go recl cs.length cs

theorem spec_chunks_go_nil (recl : Nat) : ∀ fuel, spec_chunks_go recl fuel [] = [] := by
  intro fuel
  cases fuel <;> rfl

theorem spec_chunks_go_cons (recl fuel : Nat) (c : Char) (t : List Char) :
    spec_chunks_go recl (fuel + 1) (c :: t) =
      (c :: t).take recl :: spec_chunks_go recl fuel ((c :: t).drop recl) := rfl

theorem spec_chunks_go_stable (recl : Nat) (h : 1 ≤ recl) :
    ∀ (fuel : Nat) (cs : List Char) (fuel' : Nat),
      cs.length ≤ fuel → cs.length ≤ fuel' →
      spec_chunks_go recl fuel cs = spec_chunks_go recl fuel' cs := by
  intro fuel
  induction fuel with
  | zero =>
    intro cs fuel' h1 _
    have : cs = [] := List.length_eq_zero.mp (Nat.le_zero.mp h1)
    subst this
    rw [spec_chunks_go_nil, spec_chunks_go_nil]
  | succ f ih =>
    intro cs fuel' h1 h2
    match cs, fuel' with
    | [], fuel' => rw [spec_chunks_go_nil, spec_chunks_go_nil]
    | c :: t, 0 => simp at h2
    | c :: t, f' + 1 =>
      simp only [List.length_cons] at h1 h2
      rw [spec_chunks_go_cons, spec_chunks_go_cons]
      congr 1
      apply ih
      · simp only [List.length_drop, List.length_cons]
        omega
      · simp only [List.length_drop, List.length_cons]
        omega

theorem spec_chunks_nil (recl : Nat) : spec_chunks recl [] = [] := rfl

theorem spec_chunks_cons (recl : Nat) (h : 1 ≤ recl) (cs : List Char) (hne : cs ≠ []) :
    spec_chunks recl cs = cs.take recl :: spec_chunks recl (cs.drop recl) := by
  rw [spec_chunks, spec_chunks]
  match cs, hne with
  | c :: t, _ =>
    rw [show (c :: t).length = t.length + 1 from rfl, spec_chunks_go_cons]
    congr 1
    apply spec_chunks_go_stable recl h
    · simp
      omega
    · simp

/-- The C5 claim's description of fixed-format conversion, stated from
the spec's words: decode the whole buffer, split it into
`recl`-character chunks, drop the last 8 characters of a chunk when
`unnum` is set and those characters are all digits (a chunk shorter than
8 characters has no "last 8 characters" to drop), strip trailing spaces
from each chunk, join the chunks with newlines and terminate with a
final newline. -/
def spec_convert_text_file (ebcdic_text : List Nat) (recl : Nat) (unnum : Bool) : String :=
  let asciifile := ebcdic_text.map cp1140
  if recl < 1 then ⟨asciifile ++ ['\n']⟩
  else
    let seq_file := (spec_chunks recl asciifile).map (fun chunk =>
      if unnum && 8 ≤ chunk.length && (chunk.drop (chunk.length - 8)).all (·.isDigit)
      then py_rstrip (chunk.take (chunk.length - 8))
      else py_rstrip chunk)
    ⟨List.intercalate ['\n'] seq_file ++ ['\n']⟩

/-- C5 counterexample: for the EBCDIC buffer "AB1234567" (9 bytes) with
`recl = 10` and `unnum` set, the code's numbered-column window
`asciifile[i+recl-8 : i+recl]` reaches past the chunk: it sees only
`"1234567"`, finds it numeric, and truncates the line to `"AB"`; the
claim's per-chunk reading (the last 8 characters `"B1234567"` are not
all digits) keeps the whole line. -/
theorem convert_text_file_cex :
    convert_text_file [0xC1, 0xC2, 0xF1, 0xF2, 0xF3, 0xF4, 0xF5, 0xF6, 0xF7] 10 true
      = "AB\n" ∧
    spec_convert_text_file [0xC1, 0xC2, 0xF1, 0xF2, 0xF3, 0xF4, 0xF5, 0xF6, 0xF7] 10 true
      = "AB1234567\n" ∧
    ("AB\n" : String) ≠ "AB1234567\n" := by
  refine ⟨by decide, ?_, by decide⟩
  decide

theorem py_slice_str_nat (cs : List Char) (a b : Nat) :
    py_slice_str cs (a : Int) (b : Int) = (cs.take b).drop a := by
  rw [py_slice_str]
  have hia : ¬ ((a : Int) < 0) := by omega
  have hib : ¬ ((b : Int) < 0) := by omega
  simp only [hia, hib, if_false]
  have ha : (min (a : Int) cs.length).toNat = min a cs.length := by omega
  have hb : (min (b : Int) cs.length).toNat = min b cs.length := by omega
  rw [ha, hb]
  by_cases h1 : b ≤ cs.length
  · rw [min_eq_left h1]
    by_cases h2 : a ≤ cs.length
    · rw [min_eq_left h2]
    · push_neg at h2
      rw [min_eq_right (le_of_lt h2)]
      rw [List.drop_eq_nil_of_le, List.drop_eq_nil_of_le]
      · rw [List.length_take]; omega
      · rw [List.length_take]; omega
  · push_neg at h1
    rw [min_eq_right (le_of_lt h1)]
    rw [List.take_length, List.take_of_length_le (le_of_lt h1)]
    by_cases h2 : a ≤ cs.length
    · rw [min_eq_left h2]
    · push_neg at h2
      rw [min_eq_right (le_of_lt h2)]
      rw [List.drop_eq_nil_of_le le_rfl, List.drop_eq_nil_of_le (le_of_lt h2)]

theorem map_range'_shift {α : Type} (f : Nat → α) (t step : Nat) :
    ∀ (k s : Nat),
      (List.range' (s + t) k step).map f =
        (List.range' s k step).map (fun i => f (i + t)) := by
  intro k
  induction k with
  | zero => intro s; rfl
  | succ k ih =>
    intro s
    rw [List.range'_succ, List.range'_succ, List.map_cons, List.map_cons,
      show s + t + step = (s + step) + t by omega, ih]

theorem chunk_count_succ (recl n : Nat) (hrecl : 1 ≤ recl) (hn : 1 ≤ n) :
    (n + recl - 1) / recl = ((n - recl) + recl - 1) / recl + 1 := by
  have h1 : n + recl - 1 = (n - 1) + recl := by omega
  rw [h1, Nat.add_div_right _ (by omega)]
  by_cases hnr : recl ≤ n
  · have : (n - recl) + recl - 1 = n - 1 := by omega
    rw [this]
  · have hz : n - recl = 0 := by omega
    rw [hz]
    rw [Nat.div_eq_of_lt (by omega), Nat.div_eq_of_lt (by omega)]

theorem spec_chunks_eq_map (recl : Nat) (h : 1 ≤ recl) :
    ∀ (N : Nat) (cs : List Char), cs.length ≤ N →
      spec_chunks recl cs =
        (List.range' 0 ((cs.length + recl - 1) / recl) recl).map
          (fun i => (cs.drop i).take recl) := by
  intro N
  induction N with
  | zero =>
    intro cs h1
    have hnil : cs = [] := List.length_eq_zero.mp (Nat.le_zero.mp h1)
    subst hnil
    rw [spec_chunks_nil]
    simp only [List.length_nil, Nat.zero_add]
    rw [Nat.div_eq_of_lt (by omega)]
    rfl
  | succ N ih =>
    intro cs h1
    by_cases hcs : cs = []
    · subst hcs
      rw [spec_chunks_nil]
      simp only [List.length_nil, Nat.zero_add]
      rw [Nat.div_eq_of_lt (by omega)]
      rfl
    · rw [spec_chunks_cons recl h cs hcs]
      have hn : 1 ≤ cs.length := List.length_pos.mpr hcs
      rw [chunk_count_succ recl cs.length h hn, List.range'_succ, List.map_cons,
        List.drop_zero]
      congr 1
      rw [ih (cs.drop recl) (by rw [List.length_drop]; omega)]
      rw [List.length_drop]
      rw [show (0 : Nat) + recl = 0 + recl by rfl, map_range'_shift]
      apply List.map_congr_left
      intro a _
      rw [List.drop_drop]
      rw [Nat.add_comm recl a]

/-- The 160-byte EBCDIC buffer of the spec's fixed-80 scenario:
"HELLO" followed by 75 spaces, then "WORLD" followed by 75 spaces. -/
def hello_world_ebcdic : List Nat :=
  [0xC8, 0xC5, 0xD3, 0xD3, 0xD6] ++ List.replicate 75 0x40 ++
    [0xE6, 0xD6, 0xD9, 0xD3, 0xC4] ++ List.replicate 75 0x40

/-- C5 amended: the code's `unnum` window is
`asciifile[i+recl-8 : i+recl]`, taken from the whole decoded buffer
rather than from the chunk, and the truncated line is
`asciifile[i : i+recl-8]`.  This coincides with the claim's per-chunk
description whenever the window stays inside a full chunk — in
particular whenever `unnum` is off (the window is never consulted), or
`recl ≥ 8` and `recl` divides the buffer length (all chunks full) — and
the claim's concrete fixed-80 HELLO/WORLD instance holds. -/
theorem convert_text_file_spec_eq :
    (∀ (ebcdic_text : List Nat) (recl : Nat) (unnum : Bool), 1 ≤ recl →
        (unnum = false ∨ (8 ≤ recl ∧ recl ∣ ebcdic_text.length)) →
        convert_text_file ebcdic_text recl unnum =
          spec_convert_text_file ebcdic_text recl unnum) ∧
    convert_text_file hello_world_ebcdic 80 true = "HELLO\nWORLD\n" := by
  constructor
  · intro eb recl unnum h1 h2
    simp only [convert_text_file, spec_convert_text_file]
    have hrecl : ¬ recl < 1 := by omega
    rw [if_neg hrecl, if_neg hrecl]
    suffices hseq :
        (List.range' 0 (((eb.map cp1140).length + recl - 1) / recl) recl).map (fun (i : Nat) =>
          if py_isnumeric (py_slice_str (eb.map cp1140) ((i : Int) + recl - 8)
              ((i : Int) + recl)) && unnum
          then py_rstrip (py_slice_str (eb.map cp1140) (i : Int) ((i : Int) + recl - 8))
          else py_rstrip (py_slice_str (eb.map cp1140) (i : Int) ((i : Int) + recl))) =
        (spec_chunks recl (eb.map cp1140)).map (fun chunk =>
          if unnum && 8 ≤ chunk.length && (chunk.drop (chunk.length - 8)).all (·.isDigit)
          then py_rstrip (chunk.take (chunk.length - 8))
          else py_rstrip chunk) by
      rw [hseq]
    rw [spec_chunks_eq_map recl h1 (eb.map cp1140).length (eb.map cp1140) le_rfl,
      List.map_map]
    apply List.map_congr_left
    intro i hi
    dsimp only [Function.comp]
    rcases h2 with hu | ⟨h8, hdvd⟩
    · subst hu
      simp only [Bool.and_false, Bool.false_and]
      rw [if_neg (by simp), if_neg (by simp)]
      congr 1
      rw [show ((i : Int) + recl) = ((i + recl : Nat) : Int) by push_cast; ring,
        py_slice_str_nat, List.drop_take, show i + recl - i = recl by omega]
    · obtain ⟨k, hk, hik⟩ := List.mem_range'.mp hi
      obtain ⟨q, hq⟩ := hdvd
      have hn : (eb.map cp1140).length = recl * q := by
        rw [List.length_map]; exact hq
      have hile : i + recl ≤ (eb.map cp1140).length := by
        rw [hn, hik]
        have : recl * k + recl = recl * (k + 1) := by ring
        rw [Nat.zero_add, this]
        apply Nat.mul_le_mul_left
        have hm : ((eb.map cp1140).length + recl - 1) / recl = q := by
          rw [hn]
          rcases Nat.eq_zero_or_pos q with hq0 | hq0
          · subst hq0
            simp only [Nat.mul_zero, Nat.zero_add]
            exact Nat.div_eq_of_lt (by omega)
          · have : recl * q + recl - 1 = recl * q + (recl - 1) := by omega
            rw [this, Nat.mul_add_div (by omega), Nat.div_eq_of_lt (by omega)]
            omega
        rw [hm] at hk
        omega
      set cs := eb.map cp1140 with hcs
      have hclen : ((cs.drop i).take recl).length = recl := by
        rw [List.length_take, List.length_drop]
        omega
      have e1 : (i + recl) - (i + recl - 8) = 8 := by omega
      have e2 : recl - (recl - 8) = 8 := by omega
      have e3 : i + (recl - 8) = i + recl - 8 := by omega
      have hwin : py_slice_str cs ((i : Int) + recl - 8) ((i : Int) + recl) =
          ((cs.drop i).take recl).drop (recl - 8) := by
        rw [show ((i : Int) + recl - 8) = ((i + recl - 8 : Nat) : Int) by omega,
          show ((i : Int) + recl) = ((i + recl : Nat) : Int) by push_cast; ring,
          py_slice_str_nat, List.drop_take, e1, List.drop_take, e2, List.drop_drop, e3]
      have hslice8 : py_slice_str cs (i : Int) ((i : Int) + recl - 8) =
          (cs.drop i).take (recl - 8) := by
        rw [show ((i : Int) + recl - 8) = ((i + recl - 8 : Nat) : Int) by omega,
          py_slice_str_nat, List.drop_take, show i + recl - 8 - i = recl - 8 by omega]
      have hslice : py_slice_str cs (i : Int) ((i : Int) + recl) =
          (cs.drop i).take recl := by
        rw [show ((i : Int) + recl) = ((i + recl : Nat) : Int) by push_cast; ring,
          py_slice_str_nat, List.drop_take, show i + recl - i = recl by omega]
      have hwlen : (((cs.drop i).take recl).drop (recl - 8)).length = 8 := by
        rw [List.length_drop, hclen]
        omega
      have hwne : (((cs.drop i).take recl).drop (recl - 8)).isEmpty = false := by
        cases hemp : (((cs.drop i).take recl).drop (recl - 8)).isEmpty
        · rfl
        · rw [List.isEmpty_iff.mp hemp] at hwlen
          simp at hwlen
      have hcond : (py_isnumeric (((cs.drop i).take recl).drop (recl - 8)) && unnum) =
          (unnum && decide (8 ≤ ((cs.drop i).take recl).length) &&
            ((((cs.drop i).take recl)).drop (((cs.drop i).take recl).length - 8)).all
              (·.isDigit)) := by
        rw [py_isnumeric, hwne, hclen]
        simp only [Bool.not_false, Bool.true_and, decide_eq_true_eq]
        rw [decide_eq_true (by omega : 8 ≤ recl)]
        cases unnum <;>
          cases hall : (((cs.drop i).take recl).drop (recl - 8)).all (·.isDigit) <;>
          simp [hall]
      have htt : ((cs.drop i).take recl).take (((cs.drop i).take recl).length - 8) =
          (cs.drop i).take (recl - 8) := by
        rw [hclen, List.take_take]
        congr 1
        omega
      rw [hwin, hslice8, hslice, hcond, htt, hclen]
  · set_option maxRecDepth 40000 in decide

/-- Witness for C5 (amended) at a concrete input where `unnum` is off:
the code and the claim's per-chunk description agree. -/
theorem convert_text_file_spec_eq_witness :
    convert_text_file [0xC1, 0xC2] 2 false = spec_convert_text_file [0xC1, 0xC2] 2 false :=
  convert_text_file_spec_eq.1 [0xC1, 0xC2] 2 false (by decide) (Or.inl rfl)

/-! ## Text units: `__text_units` (src/xmi/__init__.py lines 2798–2886;
the near-identical `text_units` in src/xmilib.py lines 796–888 shares
every step used below) -/

/-- Decoded value of one text unit: character values are EBCDIC-decoded
strings, decimal values unsigned big-endian integers, hex values the raw
bytes (with `INMTYPE` specially mapped to a descriptive string). -/
inductive TUValue
  | s (v : String)
  | n (v : Nat)
  | bs (v : List Nat)
deriving DecidableEq, Repr

/-- The `type` field of the `IBM_text_units` reference table. -/
inductive TUType
  | character
  | decimal
  | hex
deriving DecidableEq, Repr

/-- The `IBM_text_units` reference table (src/xmi/__init__.py lines
74–103): key → (mnemonic, type). -/
def IBM_text_units (key : Nat) : Option (String × TUType) :=
  if key = 0x0001 then some ("INMDDNAM", .character)
  else if key = 0x0002 then some ("INMDSNAM", .character)
  else if key = 0x0003 then some ("INMMEMBR", .character)
  else if key = 0x000B then some ("INMSECND", .decimal)
  else if key = 0x000C then some ("INMDIR", .decimal)
  else if key = 0x0022 then some ("INMEXPDT", .character)
  else if key = 0x0028 then some ("INMTERM", .character)
  else if key = 0x0030 then some ("INMBLKSZ", .decimal)
  else if key = 0x003C then some ("INMDSORG", .hex)
  else if key = 0x0042 then some ("INMLRECL", .decimal)
  else if key = 0x0049 then some ("INMRECFM", .hex)
  else if key = 0x1001 then some ("INMTNODE", .character)
  else if key = 0x1002 then some ("INMTUID", .character)
  else if key = 0x1011 then some ("INMFNODE", .character)
  else if key = 0x1012 then some ("INMFUID", .character)
  else if key = 0x1020 then some ("INMLREF", .character)
  else if key = 0x1021 then some ("INMLCHG", .character)
  else if key = 0x1022 then some ("INMCREAT", .character)
  else if key = 0x1023 then some ("INMFVERS", .character)
  else if key = 0x1024 then some ("INMFTIME", .character)
  else if key = 0x1025 then some ("INMTTIME", .character)
  else if key = 0x1026 then some ("INMFACK", .character)
  else if key = 0x1027 then some ("INMERRCD", .character)
  else if key = 0x1028 then some ("INMUTILN", .character)
  else if key = 0x1029 then some ("INMUSERP", .character)
  else if key = 0x102A then some ("INMRECCT", .character)
  else if key = 0x102C then some ("INMSIZE", .decimal)
  else if key = 0x102F then some ("INMNUMF", .decimal)
  else if key = 0x8012 then some ("INMTYPE", .hex)
  else none

/-- Python dict assignment `tu[name] = value` on an insertion-ordered
association list: replace in place, or append. -/
def dict_set (d : List (String × TUValue)) (k : String) (v : TUValue) :
    List (String × TUValue) :=
  if d.any (fun p => p.1 == k) then
    d.map (fun p => if p.1 == k then (k, v) else p)
  else d ++ [(k, v)]

/-- Python dict lookup `tu[name]`. -/
def dict_get (d : List (String × TUValue)) (k : String) : Option TUValue :=
  (d.find? (fun p => p.1 == k)).map (·.2)

/-- The `INMTYPE` special case, an `if/elif` chain whose later
`value == 0x80` arms are unreachable in the source. -/
def inmtype_str (v : Nat) : String :=
  if v = 0x80 then "Data Library"
  else if v = 0x40 then "Program Library"
  else "None"

/-- `struct.unpack('>H', text_records[i:i+2])`: exactly two bytes are
required, else `struct.error` (modelled as `none`). -/
def read2 (bs : List Nat) (i : Nat) : Option Nat :=
  if i + 2 ≤ bs.length then some (get_int (py_slice bs i (i + 2))) else none

/-- The `if key in IBM_text_units:` body for one entry with value bytes
`item`: accumulate the `INMDSNAM` segments (character entries of that
key, joined with a trailing `.` each), decode the value by type, then —
the `if INMDSNAM:` step — override the value of ANY key with the joined
dataset name (the accumulator minus its trailing dot) once the
accumulator is non-empty, and store it under the key's mnemonic. -/
def tu_process_entry (key : Nat) (item : List Nat)
    (tu : List (String × TUValue)) (dsnam : String) :
    List (String × TUValue) × String :=
  match IBM_text_units key with
  | none => (tu, dsnam)
  | some (name, ty) =>
    let dsnam' := if ty = .character ∧ name = "INMDSNAM"
                  then dsnam ++ decode_ebcdic item ++ "." else dsnam
    let value : TUValue :=
      match ty with
      | .character => .s (decode_ebcdic item)
      | .decimal => .n (get_int item)
      | .hex => if name = "INMTYPE" then .s (inmtype_str (get_int item))
                else .bs item
    let value := if dsnam' ≠ "" then .s (dsnam'.dropRight 1) else value
    (dict_set tu name value, dsnam')

/-- The `for i in range(0, num)` body of `__text_units`, recursing on
the remaining entry count.  The first entry's length halfword sits at
`loc + 4` and its value at `loc + 6` (the cursor still points at the
key/count words); later entries carry their length at `loc` and value
at `loc + 2`.  State: cursor `loc`, dict `tu`, `INMDSNAM`
accumulator. -/
def tu_entry_loop (text_records : List Nat) (key : Nat) :
    Nat → Bool → Nat → List (String × TUValue) → String →
      Nat × List (String × TUValue) × String
  | 0, _, loc, tu, dsnam => (loc, tu, dsnam)
  | count + 1, first, loc, tu, dsnam =>
    let tlen := if first then get_int (py_slice text_records (loc + 4) (loc + 6))
                else get_int (py_slice text_records loc (loc + 2))
    let item := if first then py_slice text_records (loc + 6) (loc + 6 + tlen)
                else py_slice text_records (loc + 2) (loc + 2 + tlen)
    let st := tu_process_entry key item tu dsnam
    let loc' := if first then loc + 6 + tlen else loc + 2 + tlen
    tu_entry_loop text_records key count false loc' st.1 st.2

/-- The `while loc < len(text_records)` loop of `__text_units`, with
explicit fuel (the loop makes no progress on a zero-count block whose
key is neither 0x1026 nor 0x0028, so it has no termination argument).
Each iteration unpacks the key and count halfwords, advances 4 bytes for
the two recognized zero-count keys (0x0028 also sets the message flag),
then runs the entry loop. -/
def tu_loop (text_records : List Nat) :
    Nat → Nat → List (String × TUValue) → String → Bool →
      Option (List (String × TUValue) × Bool)
  | 0, _, _, _, _ => none
  | fuel + 1, loc, tu, dsnam, msg =>
    if loc < text_records.length then
      match read2 text_records loc, read2 text_records (loc + 2) with
      | some key, some num =>
        let loc₁ := if key = 0x1026 ∧ num = 0 then loc + 4 else loc
        let st : Nat × Bool := if key = 0x0028 ∧ num = 0 then (loc₁ + 4, true)
                               else (loc₁, msg)
        let r := tu_entry_loop text_records key num true st.1 tu dsnam
        tu_loop text_records fuel r.1 r.2.1 r.2.2 st.2
      | _, _ => none
    else some (tu, msg)

/-- Embedding of `XMIT.__text_units`: run the loop from offset 0 with an
empty dict and accumulator.  The fuel `length + 1` is shown sufficient
for every well-formed text-unit stream below, so a `none` result means
the Python loop does not terminate (or `struct.unpack` raises). -/
def text_units (text_records : List Nat) :
    Option (List (String × TUValue) × Bool) :=
  tu_loop text_records (text_records.length + 1) 0 [] "" false

theorem tu_loop_stuck : ∀ (fuel : Nat) (tu : List (String × TUValue))
    (dsnam : String) (msg : Bool),
    tu_loop [0x10, 0x00, 0x00, 0x00] fuel 0 tu dsnam msg = none := by
  intro fuel
  induction fuel with
  | zero => intro tu dsnam msg; rfl
  | succ f ih => intro tu dsnam msg; exact ih tu dsnam msg

/-- C2 counterexample: a single well-formed 4-byte text-unit block with
key 0x1000 and count 0 is not consumed at all — the loop never advances
`loc`, so decoding does not terminate (the fuelled embedding returns
`none` at every fuel; `tu_loop_stuck` states this for all fuels). -/
theorem text_units_zero_count_stuck :
    text_units [0x10, 0x00, 0x00, 0x00] = none :=
  tu_loop_stuck 5 [] "" false

/-- C1 failing input: a control record whose text units are
`INMDSNAM(0x0002)` with the single entry "HELLO" followed by
`INMLRECL(0x0042)` with the two-byte value 0x0050 (= 80).  The table
declares `INMLRECL` as `decimal`, so the claim requires the mapping to
bind `INMLRECL ↦ 80`; but once the `INMDSNAM` accumulator is non-empty
the `if INMDSNAM:` step overrides every later key's value, and the code
binds `INMLRECL ↦ "HELLO"`. -/
theorem text_units_inmdsnam_clobbers :
    (text_units [0x00, 0x02, 0x00, 0x01, 0x00, 0x05, 0xC8, 0xC5, 0xD3, 0xD3, 0xD6,
        0x00, 0x42, 0x00, 0x01, 0x00, 0x02, 0x00, 0x50]).map
      (fun r => (dict_get r.1 "INMDSNAM", dict_get r.1 "INMLRECL")) =
      some (some (.s "HELLO"), some (.s "HELLO")) ∧
    IBM_text_units 0x0042 = some ("INMLRECL", .decimal) ∧
    TUValue.s "HELLO" ≠ TUValue.n 80 := by
  refine ⟨by decide, by decide, by decide⟩

/-- One well-formed text-unit block, as described by the claim: a key,
a count, and `count` length-prefixed entries (`zero` is a block with
count 0, which occupies exactly 4 bytes). -/
inductive TUBlock
  | zero (key : Nat)
  | entries (key : Nat) (first : List Nat) (rest : List (List Nat))
deriving DecidableEq, Repr

/-- Big-endian 2-byte serialization of a halfword. -/
def ser2 (n : Nat) : List Nat := [n / 256 % 256, n % 256]

/-- One length-prefixed text-unit entry. -/
def ser_item (it : List Nat) : List Nat := ser2 it.length ++ it

/-- Serialize one block: key halfword, count halfword, then the
entries. -/
def ser_block : TUBlock → List Nat
  | .zero key => ser2 key ++ ser2 0
  | .entries key first rest =>
      ser2 key ++ ser2 (rest.length + 1) ++ ser_item first ++
        (rest.map ser_item).flatten

/-- Serialize a concatenation of text-unit blocks. -/
def ser_blocks (bs : List TUBlock) : List Nat := (bs.map ser_block).flatten

/-- Well-formedness of one block: every halfword field fits in 16 bits,
and a zero-count block carries one of the two keys the code handles
(0x1026 or 0x0028). -/
def wf_block : TUBlock → Bool
  | .zero key => key == 0x1026 || key == 0x0028
  | .entries key first rest =>
      decide (key < 65536) && decide (rest.length + 1 < 65536) &&
        decide (first.length < 65536) &&
        rest.all (fun it => decide (it.length < 65536))

theorem get_int_ser2 (n : Nat) (h : n < 65536) : get_int (ser2 n) = n := by
  simp [get_int, ser2]
  omega

theorem py_slice_at (pre post : List Nat) (i j : Nat) :
    py_slice (pre ++ post) (pre.length + i) (pre.length + j) = py_slice post i j := by
  rw [py_slice, py_slice, List.take_append, List.drop_append]

theorem py_slice_zero_left (a rest : List Nat) :
    py_slice (a ++ rest) 0 a.length = a := by
  rw [py_slice, List.drop_zero, List.take_left]

theorem read2_at (pre tail : List Nat) (x : Nat) (hx : x < 65536) :
    read2 (pre ++ (ser2 x ++ tail)) pre.length = some x := by
  rw [read2, if_pos]
  · rw [show pre.length = pre.length + 0 from rfl,
      show pre.length + 0 + 2 = pre.length + 2 from rfl, py_slice_at,
      show (2 : Nat) = (ser2 x).length from rfl, py_slice_zero_left, get_int_ser2 x hx]
  · simp [ser2]

theorem ser_block_length (b : TUBlock) : 4 ≤ (ser_block b).length := by
  cases b <;> simp [ser_block, ser2, ser_item]

theorem ser_blocks_length (bs : List TUBlock) : bs.length ≤ (ser_blocks bs).length := by
  induction bs with
  | nil => simp [ser_blocks]
  | cons b rest ih =>
    have hb := ser_block_length b
    simp only [ser_blocks, List.map_cons, List.flatten_cons, List.length_append,
      List.length_cons]
    simp only [ser_blocks] at ih
    omega

theorem tu_entry_loop_ser (text : List Nat) (key : Nat) :
    ∀ (items : List (List Nat)) (pre post : List Nat)
      (tu : List (String × TUValue)) (dsnam : String),
      (∀ it ∈ items, it.length < 65536) →
      text = pre ++ ((items.map ser_item).flatten ++ post) →
      ∃ tu' dsnam',
        tu_entry_loop text key items.length false pre.length tu dsnam =
          (pre.length + ((items.map ser_item).flatten).length, tu', dsnam') := by
  intro items
  induction items with
  | nil =>
    intro pre post tu dsnam _ _
    exact ⟨tu, dsnam, by simp [tu_entry_loop]⟩
  | cons it more ih =>
    intro pre post tu dsnam hwf htext
    have hit : it.length < 65536 := hwf it (List.mem_cons_self _ _)
    have htext1 : text = pre ++ (ser2 it.length ++ (it ++
        ((more.map ser_item).flatten ++ post))) := by
      rw [htext]
      simp [ser_item, List.append_assoc]
    have hkey : get_int (py_slice text pre.length (pre.length + 2)) = it.length := by
      rw [htext1, show pre.length = pre.length + 0 from rfl,
        show pre.length + 0 + 2 = pre.length + 2 from rfl, py_slice_at,
        show (2 : Nat) = (ser2 it.length).length from rfl, py_slice_zero_left,
        get_int_ser2 _ hit]
    have htext2 : text = (pre ++ ser2 it.length) ++ (it ++
        ((more.map ser_item).flatten ++ post)) := by
      rw [htext1]
      simp [List.append_assoc]
    have hplen : (pre ++ ser2 it.length).length = pre.length + 2 := by simp [ser2]
    have hitem : py_slice text (pre.length + 2) (pre.length + 2 + it.length) = it := by
      rw [htext2, ← hplen, show (pre ++ ser2 it.length).length + it.length =
          (pre ++ ser2 it.length).length + it.length from rfl,
        show (pre ++ ser2 it.length).length = (pre ++ ser2 it.length).length + 0 from rfl,
        show (pre ++ ser2 it.length).length + 0 + it.length =
          (pre ++ ser2 it.length).length + it.length from rfl, py_slice_at,
        py_slice_zero_left]
    rw [show (it :: more).length = more.length + 1 from rfl, tu_entry_loop]
    simp only [Bool.false_eq_true, if_false, hkey, hitem]
    obtain ⟨tu2, ds2, hrec⟩ := ih (pre ++ ser_item it) post
      (tu_process_entry key it tu dsnam).1 (tu_process_entry key it tu dsnam).2
      (fun x hx => hwf x (List.mem_cons_of_mem _ hx))
      (by rw [htext]; simp [ser_item, List.append_assoc])
    refine ⟨tu2, ds2, ?_⟩
    have hploc : pre.length + 2 + it.length = (pre ++ ser_item it).length := by
      simp [ser_item, ser2]
      omega
    rw [hploc, hrec]
    have : ((it :: more).map ser_item).flatten =
        ser_item it ++ (more.map ser_item).flatten := by
      simp
    rw [this]
    simp [ser_item, ser2]
    omega

theorem tu_entry_loop_block (text : List Nat) (key : Nat) (first : List Nat)
    (rest : List (List Nat)) (pre post : List Nat)
    (tu : List (String × TUValue)) (dsnam : String)
    (hf : first.length < 65536) (hr : ∀ it ∈ rest, it.length < 65536)
    (htext : text = pre ++ (ser_block (.entries key first rest) ++ post)) :
    ∃ tu' dsnam',
      tu_entry_loop text key (rest.length + 1) true pre.length tu dsnam =
        (pre.length + (ser_block (.entries key first rest)).length, tu', dsnam') := by
  have htextP : text = (pre ++ (ser2 key ++ ser2 (rest.length + 1))) ++
      (ser2 first.length ++ (first ++ ((rest.map ser_item).flatten ++ post))) := by
    rw [htext]
    simp [ser_block, ser_item, List.append_assoc]
  have hP : (pre ++ (ser2 key ++ ser2 (rest.length + 1))).length = pre.length + 4 := by
    simp [ser2]
  have hlen : get_int (py_slice text (pre.length + 4) (pre.length + 6)) = first.length := by
    rw [show pre.length + 4 = (pre ++ (ser2 key ++ ser2 (rest.length + 1))).length + 0
        from by rw [hP],
      show pre.length + 6 = (pre ++ (ser2 key ++ ser2 (rest.length + 1))).length + 2
        from by rw [hP],
      htextP, py_slice_at, show (2 : Nat) = (ser2 first.length).length from rfl,
      py_slice_zero_left, get_int_ser2 _ hf]
  have htextP6 : text = ((pre ++ (ser2 key ++ ser2 (rest.length + 1))) ++ ser2 first.length)
      ++ (first ++ ((rest.map ser_item).flatten ++ post)) := by
    rw [htextP]
    simp [List.append_assoc]
  have hP6 : ((pre ++ (ser2 key ++ ser2 (rest.length + 1))) ++ ser2 first.length).length =
      pre.length + 6 := by
    simp [ser2]
  have hitem : py_slice text (pre.length + 6) (pre.length + 6 + first.length) = first := by
    rw [show pre.length + 6 =
        ((pre ++ (ser2 key ++ ser2 (rest.length + 1))) ++ ser2 first.length).length + 0
        from by rw [hP6],
      show ((pre ++ (ser2 key ++ ser2 (rest.length + 1))) ++
            ser2 first.length).length + 0 + first.length =
          ((pre ++ (ser2 key ++ ser2 (rest.length + 1))) ++
            ser2 first.length).length + first.length from rfl,
      htextP6, py_slice_at, py_slice_zero_left]
  rw [tu_entry_loop]
  simp only [if_true, hlen, hitem]
  obtain ⟨tu2, ds2, hrec⟩ := tu_entry_loop_ser text key rest
    (((pre ++ (ser2 key ++ ser2 (rest.length + 1))) ++ ser2 first.length) ++ first) post
    (tu_process_entry key first tu dsnam).1 (tu_process_entry key first tu dsnam).2 hr
    (by rw [htextP6]; simp [List.append_assoc])
  refine ⟨tu2, ds2, ?_⟩
  have hP6f : (((pre ++ (ser2 key ++ ser2 (rest.length + 1))) ++ ser2 first.length) ++
      first).length = pre.length + 6 + first.length := by
    simp [ser2]
    omega
  rw [show pre.length + 6 + first.length =
      (((pre ++ (ser2 key ++ ser2 (rest.length + 1))) ++ ser2 first.length) ++ first).length
      from by rw [hP6f], hrec, hP6f]
  congr 1
  simp [ser_block, ser_item, ser2]
  omega

theorem tu_loop_ser :
    ∀ (bs : List TUBlock) (fuel : Nat) (pre : List Nat)
      (tu : List (String × TUValue)) (dsnam : String) (msg : Bool),
      (∀ b ∈ bs, wf_block b = true) → bs.length < fuel →
      (tu_loop (pre ++ ser_blocks bs) fuel pre.length tu dsnam msg).isSome = true := by
  intro bs
  induction bs with
  | nil =>
    intro fuel pre tu dsnam msg _ hfuel
    match fuel, hfuel with
    | f + 1, _ =>
      rw [show ser_blocks [] = [] from rfl, List.append_nil, tu_loop,
        if_neg (lt_irrefl pre.length)]
      rfl
  | cons b rest ih =>
    intro fuel pre tu dsnam msg hwf hfuel
    have hwfb := hwf b (List.mem_cons_self _ _)
    have hwfrest : ∀ x ∈ rest, wf_block x = true :=
      fun x hx => hwf x (List.mem_cons_of_mem _ hx)
    match fuel, hfuel with
    | f + 1, hfuel =>
      have hlt : pre.length < (pre ++ ser_blocks (b :: rest)).length := by
        have h4 := ser_block_length b
        simp only [ser_blocks, List.map_cons, List.flatten_cons, List.length_append]
        omega
      have hflt : rest.length < f := by
        simp at hfuel
        omega
      cases b with
      | zero key =>
        have hk : key = 0x1026 ∨ key = 0x0028 := by
          simp [wf_block] at hwfb
          exact hwfb
        have hk65 : key < 65536 := by rcases hk with rfl | rfl <;> omega
        have hkey : read2 (pre ++ ser_blocks (.zero key :: rest)) pre.length = some key := by
          rw [show pre ++ ser_blocks (.zero key :: rest) =
              pre ++ (ser2 key ++ (ser2 0 ++ ser_blocks rest)) from by
            simp [ser_blocks, ser_block, List.append_assoc]]
          exact read2_at pre _ key hk65
        have hnum : read2 (pre ++ ser_blocks (.zero key :: rest)) (pre.length + 2) =
            some 0 := by
          rw [show pre ++ ser_blocks (.zero key :: rest) =
              (pre ++ ser2 key) ++ (ser2 0 ++ ser_blocks rest) from by
            simp [ser_blocks, ser_block, List.append_assoc]]
          have h := read2_at (pre ++ ser2 key) (ser_blocks rest) 0 (by omega)
          rwa [show (pre ++ ser2 key).length = pre.length + 2 from by simp [ser2]] at h
        have hih := ih f (pre ++ ser_block (.zero key)) tu dsnam true hwfrest hflt
        have hih' := ih f (pre ++ ser_block (.zero key)) tu dsnam msg hwfrest hflt
        rw [List.append_assoc] at hih hih'
        simp only [List.length_append] at hih hih'
        rcases hk with rfl | rfl
        · rw [tu_loop, if_pos hlt, hkey, hnum]
          exact hih'
        · rw [tu_loop, if_pos hlt, hkey, hnum]
          exact hih
      | entries key first rItems =>
        simp only [wf_block, Bool.and_eq_true, decide_eq_true_eq, List.all_eq_true] at hwfb
        obtain ⟨⟨⟨hk65, hn65⟩, hf65⟩, hr65⟩ := hwfb
        have hkey : read2 (pre ++ ser_blocks (.entries key first rItems :: rest))
            pre.length = some key := by
          rw [show pre ++ ser_blocks (.entries key first rItems :: rest) =
              pre ++ (ser2 key ++ (ser2 (rItems.length + 1) ++ (ser_item first ++
                ((rItems.map ser_item).flatten ++ ser_blocks rest)))) from by
            simp [ser_blocks, ser_block, List.append_assoc]]
          exact read2_at pre _ key hk65
        have hnum : read2 (pre ++ ser_blocks (.entries key first rItems :: rest))
            (pre.length + 2) = some (rItems.length + 1) := by
          rw [show pre ++ ser_blocks (.entries key first rItems :: rest) =
              (pre ++ ser2 key) ++ (ser2 (rItems.length + 1) ++ (ser_item first ++
                ((rItems.map ser_item).flatten ++ ser_blocks rest))) from by
            simp [ser_blocks, ser_block, List.append_assoc]]
          have h := read2_at (pre ++ ser2 key)
            (ser_item first ++ ((rItems.map ser_item).flatten ++ ser_blocks rest))
            (rItems.length + 1) hn65
          rwa [show (pre ++ ser2 key).length = pre.length + 2 from by simp [ser2]] at h
        obtain ⟨tu', ds', hentry⟩ := tu_entry_loop_block
          (pre ++ ser_blocks (.entries key first rItems :: rest)) key first rItems pre
          (ser_blocks rest) tu dsnam hf65 hr65
          (by simp [ser_blocks, ser_block, List.append_assoc])
        rw [tu_loop, if_pos hlt, hkey, hnum]
        dsimp only
        rw [if_neg (fun h => Nat.succ_ne_zero _ h.2),
          if_neg (fun h => Nat.succ_ne_zero _ h.2), hentry]
        have hih := ih f (pre ++ ser_block (.entries key first rItems)) tu' ds' msg
          hwfrest hflt
        rw [List.append_assoc] at hih
        simp only [List.length_append] at hih
        exact hih

/-- C2 amended: a zero-count text-unit block occupies 4 bytes, but the
code consumes it only for the two special keys (0x1026 = skip, 0x0028 =
"this XMI contains a message"); for any other key with count 0 the
cursor never advances and decoding does not terminate.  Decoding any
concatenation of well-formed text-unit blocks in which every zero-count
block carries one of those two keys terminates: the fuelled embedding
completes within `length + 1` iterations. -/
theorem text_units_total_wf (bs : List TUBlock)
    (hwf : ∀ b ∈ bs, wf_block b = true) :
    (text_units (ser_blocks bs)).isSome = true := by
  rw [text_units]
  have hcount : bs.length < (ser_blocks bs).length + 1 :=
    Nat.lt_succ_of_le (ser_blocks_length bs)
  have h := tu_loop_ser bs ((ser_blocks bs).length + 1) [] [] "" false hwf hcount
  simpa using h

/-- Witness for C2 (amended): a stream of a skip block (key 0x1026,
count 0), a message block (key 0x0028, count 0) and an `INMLRECL` block
decodes to completion. -/
theorem text_units_total_wf_witness :
    (text_units (ser_blocks [.zero 0x1026, .zero 0x0028,
        .entries 0x0042 [0x00, 0x50] []])).isSome = true :=
  text_units_total_wf
    [.zero 0x1026, .zero 0x0028, .entries 0x0042 [0x00, 0x50] []] (by decide)
